import Mathlib

/-!  Shallow embedding of `lib_dsp/src/lib_dsp_math.c` (XMOS lib_dsp scalar
fixed-point math) together with proofs of the specification claims.

The C routines are built from three XS1 machine operations on a 64-bit
accumulator register pair `ah:al`:

* `maccs ah,al,x,y`   : signed 64-bit multiply-accumulate,
* `lsats ah,al,q`     : saturate the accumulator to the signed (32+q)-bit range,
* `lextract ah,al,q,32` : take 32 bits of the accumulator starting at bit `q`.

Machine integers are modelled as `ℤ` with explicit two's-complement wrapping
(`toInt32`, `toInt64`); 32-bit C additions, subtractions, multiplications and
negations that may overflow are wrapped with `toInt32` (signed overflow wraps
on the target).  C `>>` on signed values is an arithmetic shift, i.e. `Int.fdiv`
by a power of two; C `/` is truncation toward zero.  -/

/-- Two's-complement reinterpretation of an integer as a signed 32-bit value
(the low 32 bits read as a signed word).  Models wrapping of C `int` results. -/
def toInt32 (n : ℤ) : ℤ := (n + 2^31) % 2^32 - 2^31

/-- Two's-complement reinterpretation of an integer as a signed 64-bit value.
Models the 64-bit accumulator register pair `ah:al`. -/
def toInt64 (n : ℤ) : ℤ := (n + 2^63) % 2^64 - 2^63

/-- XS1 `maccs`: signed 64-bit multiply-accumulate, `acc + x*y` wrapped to the
64-bit accumulator. -/
def maccs (acc x y : ℤ) : ℤ := toInt64 (acc + x * y)

/-- XS1 `lsats`: saturate the 64-bit accumulator to the signed (32+q)-bit range
`[-2^(31+q), 2^(31+q) - 1]`, so that a following 32-bit extract at position `q`
yields the clamped signed 32-bit extreme on overflow. -/
def lsats (v : ℤ) (q : ℕ) : ℤ := max (-(2^(31+q))) (min v (2^(31+q) - 1))

/-- XS1 `lextract ah,al,q,32`: the 32 bits of the 64-bit accumulator starting
at bit `q`, read as a signed word; equivalently the low 32 bits of the
arithmetic right shift of the accumulator by `q`. -/
def lextract32 (v : ℤ) (q : ℕ) : ℤ := toInt32 (Int.fdiv v (2^q))

/-- C integer division by 2 (truncation toward zero), as in `result/2` and
`rad/2` in the source. -/
def cdiv2 (x : ℤ) : ℤ := Int.sign x * (x.natAbs / 2)

/-- lib_dsp_math.c lines 7-13, `lib_dsp_math_multiply`: non-saturating
fixed-point multiply.  `maccs` from the initial accumulator `0:(1<<(q-1))`
(the rounding bias), then `lextract` by `q`. -/
def lib_dsp_math_multiply (a b : ℤ) (q : ℕ) : ℤ :=
  lextract32 (maccs (2^(q-1)) a b) q

/-- lib_dsp_math.c lines 16-23, `lib_dsp_math_multiply_sat`: saturating
fixed-point multiply.  `maccs` from the bias accumulator, `lsats` by `q`,
then `lextract` by `q`. -/
def lib_dsp_math_multiply_sat (a b : ℤ) (q : ℕ) : ℤ :=
  lextract32 (lsats (maccs (2^(q-1)) a b) q) q

/-- The signed 32-bit range, the values a C `int` can hold. -/
def isInt32 (n : ℤ) : Prop := -(2^31) ≤ n ∧ n < 2^31

instance (n : ℤ) : Decidable (isInt32 n) := by unfold isInt32; infer_instance

/-- Modelled from the spec: the header `lib_dsp_qformat.h`, which provides the
`Q31` literal-conversion macro used at line 58 of lib_dsp_math.c, is not among
the repository sources.  The spec states that `reciprocal(d, 31)` returns "the
constant closest to 1.0 representable at that format", i.e. `0x7FFFFFFF`. -/
def Q31_0_9999999999 : ℤ := 2147483647

/-- One pass of the iteration loop of `lib_dsp_math_reciprocal` (lib_dsp_math.c
lines 61-69): `temp := lextract(lsats(one:bias + x*(-d)))`, then
`temp2 := lextract(lsats(bias + x*temp))`, then `x += temp2` (wrapping add). -/
def recipBody (dneg one : ℤ) (q : ℕ) (x : ℤ) : ℤ :=
  let temp := lextract32 (lsats (maccs (one * 2^32 + 2^(q-1)) x dneg) q) q
  let temp2 := lextract32 (lsats (maccs (2^(q-1)) x temp) q) q
  toInt32 (x + temp2)

/-- lib_dsp_math.c lines 48-73, `lib_dsp_math_reciprocal`: sign handling
(`d := -d + 1` for negative `d`, in wrapping 32-bit arithmetic), the `q = 31`
constant bypass, otherwise 30 unconditional iterations from
`x0 = 0x080000000 >> (63 - 2q)` with `one = 1 << (2q - 32)` preloaded in the
accumulator high word, and final negation for negative inputs.  For `q < 16`
the two initializing C shifts have undefined behaviour (negative/oversized
shift counts), so the theorems below restrict to `16 ≤ q ≤ 31`. -/
def lib_dsp_math_reciprocal (d : ℤ) (q : ℕ) : ℤ :=
  let sgn := d < 0
  let d1 := if sgn then toInt32 (-d + 1) else d
  let one : ℤ := 2^(2*q - 32)
  let x0 : ℤ := Int.fdiv 0x080000000 (2^(63 - 2*q))
  let result := if q = 31 then Q31_0_9999999999
    else (recipBody (toInt32 (-d1)) one q)^[30] x0
  if sgn then toInt32 (-result) else result

/-- One pass of the iteration loop of `lib_dsp_math_invsqrroot` (lib_dsp_math.c
lines 104-116): `r := sat multiply ah*ah`, then
`r := lextract(lsats(one:bias + r*(-d)))`, then `r := sat multiply ah*(r/2)`
(C truncating division by 2), then `ah += r` (wrapping add). -/
def invsqrBody (d one : ℤ) (q : ℕ) (ah : ℤ) : ℤ :=
  let r := lextract32 (lsats (maccs (2^(q-1)) ah ah) q) q
  let r := lextract32 (lsats (maccs (one * 2^32 + 2^(q-1)) r (toInt32 (-d))) q) q
  let r := lextract32 (lsats (maccs (2^(q-1)) ah (cdiv2 r)) q) q
  toInt32 (ah + r)

/-- lib_dsp_math.c lines 98-118, `lib_dsp_math_invsqrroot`: 10 unconditional
iterations from `ah = 1 << q` with `one = 1 << (2q - 32)` preloaded in the
accumulator high word.  As for the reciprocal, `one` has undefined behaviour
for `q < 16`, so the structural theorems below restrict to `16 ≤ q ≤ 31`. -/
def lib_dsp_math_invsqrroot (d : ℤ) (q : ℕ) : ℤ :=
  let one : ℤ := 2^(2*q - 32)
  (invsqrBody d one q)^[10] (toInt32 (2^q))

/-- lib_dsp_math.c lines 143-153, `lib_dsp_math_squareroot`: inverse square
root, then one saturating multiply by the input with a zero rounding bias
(the accumulator starts at `0:0`, not `0:(1<<(q-1))`). -/
def lib_dsp_math_squareroot (d : ℤ) (q : ℕ) : ℤ :=
  let ah := lib_dsp_math_invsqrroot d q
  lextract32 (lsats (maccs 0 ah d) q) q

/-- lib_dsp_math.c line 161: reciprocal of pi/2 in the polynomial's fixed
Q-format. -/
def ONE_OVER_HALFPI : ℤ := 10680707

/-- lib_dsp_math.c line 162: sine polynomial coefficient `r0`. -/
def r0 : ℤ := -11184804

/-- lib_dsp_math.c line 163: sine polynomial coefficient `r1`. -/
def r1 : ℤ := 2236879

/-- lib_dsp_math.c line 164: sine polynomial coefficient `r2`. -/
def r2 : ℤ := -212681

/-- lib_dsp_math.c line 165: sine polynomial coefficient `r3`. -/
def r3 : ℤ := 11175

/-- lib_dsp_math.h line 179: the fixed-point constant `PI2` (2*pi). -/
def PI2 : ℤ := 105414357

/-- Lines 172-177 of lib_dsp_math.c: `|rad|` (wrapping negation for negative
input). -/
def sinRad1 (rad : ℤ) : ℤ := if rad < 0 then toInt32 (-rad) else rad

/-- Lines 172-177: the initial `finalSign` of `lib_dsp_math_sin`. -/
def sinSign1 (rad : ℤ) : ℤ := if rad < 0 then -1 else 1

/-- Line 180: `modulo = lib_dsp_math_multiply(rad, ONE_OVER_HALFPI, q) >> q`
(arithmetic shift). -/
def sinModulo (rad : ℤ) (q : ℕ) : ℤ :=
  Int.fdiv (lib_dsp_math_multiply (sinRad1 rad) ONE_OVER_HALFPI q) (2^q)

/-- Line 181: `rad -= (modulo >> 2) * PI2` (wrapping product and subtraction). -/
def sinRad2 (rad : ℤ) (q : ℕ) : ℤ :=
  toInt32 (sinRad1 rad - toInt32 (Int.fdiv (sinModulo rad q) 4 * PI2))

/-- Lines 182-185: the quadrant sign flip when bit 1 of `modulo` is set
(`modulo & 2` tested as `2 ≤ modulo % 4` on the two's-complement low bits). -/
def sinSign (rad : ℤ) (q : ℕ) : ℤ :=
  if 2 ≤ sinModulo rad q % 4 then -sinSign1 rad else sinSign1 rad

/-- Lines 182-185: `rad -= (PI2+1)>>1` when bit 1 of `modulo` is set. -/
def sinRad3 (rad : ℤ) (q : ℕ) : ℤ :=
  if 2 ≤ sinModulo rad q % 4 then toInt32 (sinRad2 rad q - Int.fdiv (PI2 + 1) 2)
  else sinRad2 rad q

/-- Lines 186-188: `rad = ((PI2+1)>>1) - rad` when bit 0 of `modulo` is set. -/
def sinRad4 (rad : ℤ) (q : ℕ) : ℤ :=
  if sinModulo rad q % 2 = 1 then toInt32 (Int.fdiv (PI2 + 1) 2 - sinRad3 rad q)
  else sinRad3 rad q

/-- Line 189: `sqr = lib_dsp_math_multiply(rad/2, rad/2, q)` (C truncating
division by 2). -/
def sinSqr (rad : ℤ) (q : ℕ) : ℤ :=
  lib_dsp_math_multiply (cdiv2 (sinRad4 rad q)) (cdiv2 (sinRad4 rad q)) q

/-- Line 195: innermost Horner multiply `lib_dsp_math_multiply(r3, sqr, q)`. -/
def sinM1 (rad : ℤ) (q : ℕ) : ℤ := lib_dsp_math_multiply r3 (sinSqr rad q) q

/-- Line 194/196: Horner multiply `lib_dsp_math_multiply(m1 + r2, sqr, q)`
(wrapping add). -/
def sinM2 (rad : ℤ) (q : ℕ) : ℤ :=
  lib_dsp_math_multiply (toInt32 (sinM1 rad q + r2)) (sinSqr rad q) q

/-- Line 193/197: Horner multiply `lib_dsp_math_multiply(m2 + r1, sqr, q)`. -/
def sinM3 (rad : ℤ) (q : ℕ) : ℤ :=
  lib_dsp_math_multiply (toInt32 (sinM2 rad q + r1)) (sinSqr rad q) q

/-- Line 192/198: Horner multiply `lib_dsp_math_multiply(m3 + r0, sqr, q)`. -/
def sinM4 (rad : ℤ) (q : ℕ) : ℤ :=
  lib_dsp_math_multiply (toInt32 (sinM3 rad q + r0)) (sinSqr rad q) q

/-- Line 191/199: final polynomial multiply by the folded angle,
`lib_dsp_math_multiply(m4, rad, q)`. -/
def sinM5 (rad : ℤ) (q : ℕ) : ℤ :=
  lib_dsp_math_multiply (sinM4 rad q) (sinRad4 rad q) q

/-- lib_dsp_math.c lines 167-201, `lib_dsp_math_sin`: quadrant reduction, the
odd minimax polynomial, and the final sign application
`(rad + poly) * finalSign` (wrapping add and multiply). -/
def lib_dsp_math_sin (rad : ℤ) (q : ℕ) : ℤ :=
  toInt32 (toInt32 (sinRad4 rad q + sinM5 rad q) * sinSign rad q)

/-- The seven internal fixed-point multiplies performed by `lib_dsp_math_sin`,
as operand pairs in evaluation order: the quadrant-index multiply by the
reciprocal-of-half-pi constant, the half-angle-squared multiply, the four
Horner polynomial multiplies by `sqr`, and the final polynomial multiply by
the folded angle. -/
def sinOps (rad : ℤ) (q : ℕ) : List (ℤ × ℤ) :=
  [(sinRad1 rad, ONE_OVER_HALFPI),
   (cdiv2 (sinRad4 rad q), cdiv2 (sinRad4 rad q)),
   (r3, sinSqr rad q),
   (toInt32 (sinM1 rad q + r2), sinSqr rad q),
   (toInt32 (sinM2 rad q + r1), sinSqr rad q),
   (toInt32 (sinM3 rad q + r0), sinSqr rad q),
   (sinM4 rad q, sinRad4 rad q)]

/-- The spec's description of the final step of `squareroot`: a saturating
fixed-point multiply at format `q` whose rounding bias is zero: the exact
64-bit product is clamped to the signed `(32+q)`-bit window and arithmetically
shifted right by `q` bits (no `2^(q-1)` bias is added). -/
def fixedMultiplySatZeroBias (a b : ℤ) (q : ℕ) : ℤ :=
  max (-(2^(31+q))) (min (a * b) (2^(31+q) - 1)) / 2^q

/-- The fused evaluation of `1 - d*x` used inside both Newton loops: a single
saturating fixed-point multiply-accumulate at format `q` whose wide
accumulator is preloaded with 1.0 at the doubled format (`2^(2q)`) plus the
rounding bias; the multiplier is the two's-complement negation of `d`. -/
def oneMinusProdSat (d x : ℤ) (q : ℕ) : ℤ :=
  lextract32 (lsats (toInt64 (2^(2*q) + 2^(q-1) + x * toInt32 (-d))) q) q

/-- The reciprocal algorithm as the (amended) claim states it: for negative
`d` replace `d` by `-d + 1` in wrapping 32-bit arithmetic and remember the
sign; start from `x0 = 2^(2q-32)`; run exactly 30 unconditional Newton-Raphson
iterations `x ← x + x*(1 - d*x)`, where `1 - d*x` is the fused saturating
multiply-accumulate `oneMinusProdSat` and the outer product is
`lib_dsp_math_multiply_sat`; finally negate (wrapping) if `d` was negative. -/
def reciprocalNewton (d : ℤ) (q : ℕ) : ℤ :=
  let neg := d < 0
  let a := if neg then toInt32 (-d + 1) else d
  let step := fun x =>
    toInt32 (x + lib_dsp_math_multiply_sat x (oneMinusProdSat a x q) q)
  let res := step^[30] (2^(2*q - 32))
  if neg then toInt32 (-res) else res

/-- The reciprocal algorithm exactly as claim C5 words it, with the sign
handling read as exact integer arithmetic: `d` is replaced by the exact value
`-d + 1` (no 32-bit wrap) before the subtraction `1 - d*x`, and the final
negation is exact. -/
def reciprocalNewtonLiteral (d : ℤ) (q : ℕ) : ℤ :=
  let neg := d < 0
  let a := if neg then -d + 1 else d
  let step := fun x =>
    toInt32 (x + lib_dsp_math_multiply_sat x
      (lextract32 (lsats (toInt64 (2^(2*q) + 2^(q-1) - a * x)) q) q) q)
  let res := step^[30] (2^(2*q - 32))
  if neg then -res else res

/-- The inverse-square-root Newton step as the claim states it:
`y ← y + y * ((1 - d*y²)/2)` where `y²` and the outer product are
`lib_dsp_math_multiply_sat`, `1 - d*y²` is the fused saturating
multiply-accumulate, and `/2` is the C truncating integer division applied to
the correction term before the final accumulation multiply. -/
def invsqrtNewtonStep (d : ℤ) (q : ℕ) (y : ℤ) : ℤ :=
  let ysq := lib_dsp_math_multiply_sat y y q
  let corr := oneMinusProdSat d ysq q
  toInt32 (y + lib_dsp_math_multiply_sat y (cdiv2 corr) q)

/-- The inverse-square-root algorithm as the claim states it: initial guess
`y0 = 1.0` at format `q` (the int32 raw value of `1 << q`), then exactly 10
unconditional iterations of `invsqrtNewtonStep`. -/
def invsqrtNewton (d : ℤ) (q : ℕ) : ℤ :=
  (invsqrtNewtonStep d q)^[10] (toInt32 (2^q))

/-! Basic facts about the wrapping and saturating primitives. -/

lemma isInt32_toInt32 (n : ℤ) : isInt32 (toInt32 n) := by
  unfold isInt32 toInt32
  have h1 : 0 ≤ (n + 2^31) % 2^32 := Int.emod_nonneg _ (by norm_num)
  have h2 : (n + 2^31) % 2^32 < 2^32 := Int.emod_lt_of_pos _ (by norm_num)
  constructor <;> [linarith; linarith [show ((2:ℤ)^32) = 2^31 + 2^31 by norm_num]]

lemma toInt32_eq_self {n : ℤ} (h : isInt32 n) : toInt32 n = n := by
  obtain ⟨h1, h2⟩ := h
  unfold toInt32
  rw [Int.emod_eq_of_lt (by linarith) (by linarith [show ((2:ℤ)^32) = 2^31 + 2^31 by norm_num])]
  ring

lemma toInt64_eq_self {n : ℤ} (h1 : -(2^63) ≤ n) (h2 : n < 2^63) : toInt64 n = n := by
  unfold toInt64
  rw [Int.emod_eq_of_lt (by linarith) (by linarith [show ((2:ℤ)^64) = 2^63 + 2^63 by norm_num])]
  ring

lemma toInt32_add_wrap (n k : ℤ) : toInt32 (n + 2^32 * k) = toInt32 n := by
  unfold toInt32
  rw [add_right_comm, Int.add_mul_emod_self_left]

lemma exists_wrap (n : ℤ) : ∃ k, n = toInt32 n + 2^32 * k := by
  refine ⟨(n + 2^31) / 2^32, ?_⟩
  unfold toInt32
  have := Int.ediv_add_emod (n + 2^31) (2^32)
  linarith

lemma toInt32_neg {n : ℤ} (h : toInt32 n ≠ -(2^31)) : toInt32 (-n) = -toInt32 n := by
  obtain ⟨k, hk⟩ := exists_wrap n
  obtain ⟨hl, hr⟩ := isInt32_toInt32 n
  have h2 : toInt32 (-n) = toInt32 (-toInt32 n) := by
    conv_lhs => rw [hk]
    rw [show -(toInt32 n + 2^32 * k) = -toInt32 n + 2^32 * (-k) by ring]
    exact toInt32_add_wrap _ _
  rw [h2, toInt32_eq_self ⟨by omega, by omega⟩]

lemma twoPowPos (k : ℕ) : (0:ℤ) < 2^k := pow_pos two_pos k

/-- Bound on the product of two signed 32-bit values. -/
lemma int32_mul_bound {a b : ℤ} (ha : isInt32 a) (hb : isInt32 b) :
    -(2^62) ≤ a * b ∧ a * b ≤ 2^62 := by
  obtain ⟨ha1, ha2⟩ := ha
  obtain ⟨hb1, hb2⟩ := hb
  have h1 : |a| ≤ 2^31 := abs_le.mpr ⟨ha1, le_of_lt ha2⟩
  have h2 : |b| ≤ 2^31 := abs_le.mpr ⟨hb1, le_of_lt hb2⟩
  have h3 : |a * b| ≤ 2^62 := by
    rw [abs_mul]
    calc |a| * |b| ≤ 2^31 * 2^31 :=
          mul_le_mul h1 h2 (abs_nonneg b) (by norm_num)
      _ = 2^62 := by norm_num
  exact ⟨neg_le_of_abs_le h3, le_of_abs_le h3⟩

/-- The biased product of two 32-bit values never wraps the 64-bit
accumulator. -/
lemma maccs_bias_exact {a b : ℤ} (ha : isInt32 a) (hb : isInt32 b)
    {q : ℕ} (hq : q ≤ 31) :
    maccs (2^(q-1)) a b = a * b + 2^(q-1) := by
  obtain ⟨h1, h2⟩ := int32_mul_bound ha hb
  have hb1 : (0:ℤ) ≤ 2^(q-1) := le_of_lt (twoPowPos _)
  have hb2 : (2:ℤ)^(q-1) ≤ 2^30 := pow_le_pow_right₀ (by norm_num) (by omega)
  unfold maccs
  rw [toInt64_eq_self
    (by linarith [show (-(2^62:ℤ)) ≥ -(2^63) by norm_num])
    (by linarith [show ((2:ℤ)^30) + 2^62 < 2^63 by norm_num])]
  ring

/-- C4: for int32 operands and a valid Q-format, the non-saturating multiply
returns the low 32 bits of the 64-bit value `a*b + 2^(q-1)` arithmetically
shifted right by `q`, wrapping modulo `2^32` on overflow. -/
theorem multiply_wraps (a b : ℤ) (q : ℕ) (ha : isInt32 a) (hb : isInt32 b)
    (hq1 : 1 ≤ q) (hq2 : q ≤ 31) :
    lib_dsp_math_multiply a b q = toInt32 (Int.fdiv (a * b + 2^(q-1)) (2^q)) := by
  unfold lib_dsp_math_multiply lextract32
  rw [maccs_bias_exact ha hb hq2]

/-- C4 witness. -/
theorem multiply_wraps_witness :
    isInt32 (-2147483648) ∧ isInt32 2147483647 ∧ 1 ≤ 5 ∧ 5 ≤ 31 ∧
    lib_dsp_math_multiply (-2147483648) 2147483647 5 =
      toInt32 (Int.fdiv ((-2147483648) * 2147483647 + 2^(5-1)) (2^5)) :=
  ⟨by decide, by decide, by norm_num, by norm_num,
    multiply_wraps (-2147483648) 2147483647 5 (by decide) (by decide)
      (by norm_num) (by norm_num)⟩

lemma lsats_eq_self {v : ℤ} {q : ℕ} (h1 : -(2^(31+q)) ≤ v) (h2 : v ≤ 2^(31+q) - 1) :
    lsats v q = v := by
  unfold lsats
  rw [min_eq_left h2, max_eq_right h1]

/-- After `lsats`, the arithmetic shift by `q` lands in the int32 range. -/
lemma sat_extract_int32 (v : ℤ) (q : ℕ) :
    -(2^31) ≤ lsats v q / 2^q ∧ lsats v q / 2^q < 2^31 := by
  have hpos : (0:ℤ) < 2^q := twoPowPos q
  have hlo : -(2^(31+q)) ≤ lsats v q := by
    unfold lsats; exact le_max_left _ _
  have hhi : lsats v q ≤ 2^(31+q) - 1 := by
    unfold lsats
    exact max_le (by linarith [twoPowPos (31+q)]) (min_le_right _ _)
  constructor
  · calc -(2^31 : ℤ) = -(2^(31+q)) / 2^q := by
          rw [pow_add, neg_mul_eq_neg_mul, Int.mul_ediv_cancel _ (ne_of_gt hpos)]
    _ ≤ lsats v q / 2^q := Int.ediv_le_ediv hpos hlo
  · have : lsats v q < 2^31 * 2^q := by
      rw [← pow_add]; linarith
    exact (Int.ediv_lt_iff_lt_mul hpos).mpr this

/-- The saturating multiply equals the clamped shifted accumulator; the final
32-bit extract does not wrap. -/
lemma multiply_sat_eq_sat_shift (a b : ℤ) (q : ℕ) :
    lib_dsp_math_multiply_sat a b q = lsats (maccs (2^(q-1)) a b) q / 2^q ∧
    isInt32 (lsats (maccs (2^(q-1)) a b) q / 2^q) := by
  obtain ⟨l, r⟩ := sat_extract_int32 (maccs (2^(q-1)) a b) q
  refine ⟨?_, l, r⟩
  unfold lib_dsp_math_multiply_sat lextract32
  rw [Int.fdiv_eq_ediv _ (le_of_lt (twoPowPos _)), toInt32_eq_self ⟨l, r⟩]

/-- If the biased shifted product is representable in int32, the accumulator
is inside the `lsats` window, so no clamping happens. -/
lemma lsats_bias_acc_eq_self {a b : ℤ} {q : ℕ}
    (h : isInt32 (Int.fdiv (a * b + 2^(q-1)) (2^q))) :
    lsats (a * b + 2^(q-1)) q = a * b + 2^(q-1) := by
  have hpos : (0:ℤ) < 2^q := twoPowPos q
  rw [Int.fdiv_eq_ediv _ (le_of_lt hpos)] at h
  obtain ⟨hl, hr⟩ := h
  set acc : ℤ := a * b + 2^(q-1) with hacc
  have hsplit := Int.ediv_add_emod acc (2^q)
  have hm1 : 0 ≤ acc % 2^q := Int.emod_nonneg _ (ne_of_gt hpos)
  have hm2 : acc % 2^q < 2^q := Int.emod_lt_of_pos _ hpos
  have hD1 : 2^q * -(2^31) ≤ 2^q * (acc / 2^q) :=
    mul_le_mul_of_nonneg_left hl (le_of_lt hpos)
  have hD2 : 2^q * (acc / 2^q) ≤ 2^q * (2^31 - 1) :=
    mul_le_mul_of_nonneg_left (by omega) (le_of_lt hpos)
  have hp : (2:ℤ)^(31+q) = 2^31 * 2^q := pow_add 2 31 q
  apply lsats_eq_self
  · nlinarith
  · nlinarith

/-- C3: the saturating multiply always returns a value in the signed 32-bit
range, and the non-saturating multiply agrees with it whenever the exact
product plus the rounding bias, shifted right by `q`, is representable in a
signed 32-bit integer. -/
theorem multiply_sat_range_agree (a b : ℤ) (q : ℕ) (ha : isInt32 a)
    (hb : isInt32 b) (hq1 : 1 ≤ q) (hq2 : q ≤ 31) :
    isInt32 (lib_dsp_math_multiply_sat a b q) ∧
    (isInt32 (Int.fdiv (a * b + 2^(q-1)) (2^q)) →
      lib_dsp_math_multiply a b q = lib_dsp_math_multiply_sat a b q) := by
  constructor
  · obtain ⟨e, h⟩ := multiply_sat_eq_sat_shift a b q
    rw [e]; exact h
  · intro h
    unfold lib_dsp_math_multiply lib_dsp_math_multiply_sat
    rw [maccs_bias_exact ha hb hq2, lsats_bias_acc_eq_self h]

/-- C3 witness. -/
theorem multiply_sat_range_agree_witness :
    isInt32 12345 ∧ isInt32 (-678901) ∧ 1 ≤ 28 ∧ 28 ≤ 31 ∧
    (isInt32 (lib_dsp_math_multiply_sat 12345 (-678901) 28) ∧
     (isInt32 (Int.fdiv (12345 * (-678901) + 2^(28-1)) (2^28)) →
       lib_dsp_math_multiply 12345 (-678901) 28 =
         lib_dsp_math_multiply_sat 12345 (-678901) 28)) :=
  ⟨by decide, by decide, by norm_num, by norm_num,
    multiply_sat_range_agree 12345 (-678901) 28 (by decide) (by decide)
      (by norm_num) (by norm_num)⟩

/-- Whenever the exact product is zero, both multiply variants return zero:
the rounding bias `2^(q-1)` is entirely shifted out by the right shift. -/
lemma multiply_zero_prod {a b : ℤ} {q : ℕ} (h : a * b = 0) (hq1 : 1 ≤ q)
    (hq2 : q ≤ 31) :
    lib_dsp_math_multiply a b q = 0 ∧ lib_dsp_math_multiply_sat a b q = 0 := by
  have hb2 : (2:ℤ)^(q-1) ≤ 2^30 := pow_le_pow_right₀ (by norm_num) (by omega)
  have hacc : maccs (2^(q-1)) a b = 2^(q-1) := by
    unfold maccs
    rw [h, add_zero, toInt64_eq_self
      (by linarith [twoPowPos (q-1), show (0:ℤ) ≥ -(2^63) by norm_num])
      (by linarith [show ((2:ℤ)^30) < 2^63 by norm_num])]
  have hshift : Int.fdiv (2^(q-1)) (2^q) = 0 := by
    rw [Int.fdiv_eq_ediv _ (le_of_lt (twoPowPos q))]
    exact Int.ediv_eq_zero_of_lt (le_of_lt (twoPowPos _))
      (pow_lt_pow_right₀ (by norm_num) (by omega))
  have hclamp : lsats (2^(q-1)) q = 2^(q-1) := by
    apply lsats_eq_self
    · linarith [twoPowPos (q-1), twoPowPos (31+q)]
    · linarith [pow_lt_pow_right₀ (show (1:ℤ) < 2 by norm_num)
        (show q-1 < 31+q by omega)]
  constructor
  · unfold lib_dsp_math_multiply lextract32
    rw [hacc, hshift]
    decide
  · unfold lib_dsp_math_multiply_sat lextract32
    rw [hacc, hclamp, hshift]
    decide

/-- C10: zero is an annihilator of both multiply variants: the rounding bias
`2^(q-1)` is entirely shifted out by the final right shift by `q`. -/
theorem multiply_zero_left (b : ℤ) (q : ℕ) (hq1 : 1 ≤ q) (hq2 : q ≤ 31) :
    lib_dsp_math_multiply 0 b q = 0 ∧ lib_dsp_math_multiply_sat 0 b q = 0 :=
  multiply_zero_prod (zero_mul b) hq1 hq2

/-- C10 witness. -/
theorem multiply_zero_left_witness :
    1 ≤ 7 ∧ 7 ≤ 31 ∧
    (lib_dsp_math_multiply 0 123456789 7 = 0 ∧
     lib_dsp_math_multiply_sat 0 123456789 7 = 0) :=
  ⟨by norm_num, by norm_num,
    multiply_zero_left 123456789 7 (by norm_num) (by norm_num)⟩

/-- C8: the square root of zero is exactly zero: the final multiply of the
inverse square root by the input `0` has a zero accumulator, which survives
saturation and extraction unchanged. -/
theorem squareroot_zero (q : ℕ) (hq1 : 1 ≤ q) (hq2 : q ≤ 31) :
    lib_dsp_math_squareroot 0 q = 0 := by
  show lextract32 (lsats (maccs 0 (lib_dsp_math_invsqrroot 0 q) 0) q) q = 0
  have hacc : maccs 0 (lib_dsp_math_invsqrroot 0 q) 0 = 0 := by
    unfold maccs
    rw [mul_zero, add_zero, toInt64_eq_self (by norm_num) (by norm_num)]
  have hclamp : lsats 0 q = 0 := by
    apply lsats_eq_self
    · linarith [twoPowPos (31+q)]
    · linarith [twoPowPos (31+q)]
  rw [hacc, hclamp]
  unfold lextract32
  rw [Int.zero_fdiv]
  decide

/-- C8 witness. -/
theorem squareroot_zero_witness : 1 ≤ 24 ∧ 24 ≤ 31 ∧ lib_dsp_math_squareroot 0 24 = 0 :=
  ⟨by norm_num, by norm_num, squareroot_zero 24 (by norm_num) (by norm_num)⟩

/-- C2 counterexample: `reciprocal(d, 31)` does not return the same constant
for every nonzero `d`: the final sign step negates it for negative inputs. -/
theorem reciprocal_q31_not_constant :
    lib_dsp_math_reciprocal (-1) 31 ≠ lib_dsp_math_reciprocal 1 31 := by decide

/-- C2 (amended): for every nonzero `d`, `reciprocal(d, 31)` bypasses the
iteration loop and returns the near-1 constant `0x7FFFFFFF` directly when
`d > 0`, and its negation when `d < 0`. -/
theorem reciprocal_q31_bypass (d : ℤ) (hd : d ≠ 0) :
    lib_dsp_math_reciprocal d 31 =
      if d < 0 then -Q31_0_9999999999 else Q31_0_9999999999 := by
  by_cases h : d < 0
  · simp only [lib_dsp_math_reciprocal, if_pos h, reduceIte]
    decide
  · simp only [lib_dsp_math_reciprocal, if_neg h, reduceIte]

/-- C2 witness. -/
theorem reciprocal_q31_bypass_witness :
    (-7 : ℤ) ≠ 0 ∧
    lib_dsp_math_reciprocal (-7) 31 =
      if (-7 : ℤ) < 0 then -Q31_0_9999999999 else Q31_0_9999999999 :=
  ⟨by decide, reciprocal_q31_bypass (-7) (by decide)⟩

/-- General form of the no-wrap fact for the final extract after `lsats`. -/
lemma lextract32_lsats (v : ℤ) (q : ℕ) :
    lextract32 (lsats v q) q = lsats v q / 2^q := by
  obtain ⟨l, r⟩ := sat_extract_int32 v q
  unfold lextract32
  rw [Int.fdiv_eq_ediv _ (le_of_lt (twoPowPos _)), toInt32_eq_self ⟨l, r⟩]

/-- Each pass of the inverse-square-root loop returns an int32 value. -/
lemma invsqrBody_isInt32 (d one : ℤ) (q : ℕ) (ah : ℤ) :
    isInt32 (invsqrBody d one q ah) := by
  unfold invsqrBody
  exact isInt32_toInt32 _

/-- The inverse square root always lands in the int32 range. -/
lemma invsqrroot_isInt32 (d : ℤ) (q : ℕ) :
    isInt32 (lib_dsp_math_invsqrroot d q) := by
  unfold lib_dsp_math_invsqrroot
  induction 10 with
  | zero => exact isInt32_toInt32 _
  | succ n _ =>
      rw [Function.iterate_succ_apply']
      exact invsqrBody_isInt32 _ _ _ _

/-- C7: `squareroot(d, q)` is exactly one zero-bias saturating fixed-point
multiply of `invsqrroot(d, q)` by `d` at format `q`. -/
theorem squareroot_is_invsqr_times_d (d : ℤ) (q : ℕ) (hd : 0 ≤ d)
    (hd2 : d < 2^31) (hq1 : 1 ≤ q) (hq2 : q ≤ 31) :
    lib_dsp_math_squareroot d q =
      fixedMultiplySatZeroBias (lib_dsp_math_invsqrroot d q) d q := by
  show lextract32 (lsats (maccs 0 (lib_dsp_math_invsqrroot d q) d) q) q = _
  have hah := invsqrroot_isInt32 d q
  have hmul := int32_mul_bound hah ⟨by linarith [twoPowPos 31], hd2⟩
  have hacc : maccs 0 (lib_dsp_math_invsqrroot d q) d =
      lib_dsp_math_invsqrroot d q * d := by
    unfold maccs
    rw [zero_add, toInt64_eq_self
      (by linarith [hmul.1, show (-(2^62:ℤ)) ≥ -(2^63) by norm_num])
      (by linarith [hmul.2, show ((2:ℤ)^62) < 2^63 by norm_num])]
  rw [hacc, lextract32_lsats]
  unfold lsats fixedMultiplySatZeroBias
  rfl

/-- C7 witness. -/
theorem squareroot_is_invsqr_times_d_witness :
    (0 : ℤ) ≤ 67108864 ∧ (67108864 : ℤ) < 2^31 ∧ 1 ≤ 28 ∧ 28 ≤ 31 ∧
    lib_dsp_math_squareroot 67108864 28 =
      fixedMultiplySatZeroBias (lib_dsp_math_invsqrroot 67108864 28) 67108864 28 :=
  ⟨by norm_num, by norm_num, by norm_num, by norm_num,
    squareroot_is_invsqr_times_d 67108864 28 (by norm_num) (by norm_num)
      (by norm_num) (by norm_num)⟩

lemma pow_sub_mul {q : ℕ} (h : 16 ≤ q) : ((2:ℤ)^(2*q-32)) * 2^32 = 2^(2*q) := by
  rw [← pow_add]
  congr 1
  omega

/-- The accumulator preloaded with `one = 1 << (2q-32)` in the high word holds
exactly 1.0 at the doubled format, `2^(2q)`, plus the rounding bias. -/
lemma accum_one_eq {q : ℕ} (h : 16 ≤ q) (x w : ℤ) :
    maccs (2^(2*q-32) * 2^32 + 2^(q-1)) x w = toInt64 (2^(2*q) + 2^(q-1) + x * w) := by
  unfold maccs
  rw [pow_sub_mul h]

/-- The C initializer `0x080000000 >> (63 - 2q)` equals `2^(2q-32)` on the
defined range `16 ≤ q ≤ 31`. -/
lemma recip_x0_eq {q : ℕ} (h1 : 16 ≤ q) (h2 : q ≤ 31) :
    Int.fdiv 0x080000000 (2^(63 - 2*q)) = ((2:ℤ)^(2*q - 32)) := by
  have hexp : (2*q-32) + (63-2*q) = 31 := by omega
  have he : (0x080000000 : ℤ) = 2^(2*q-32) * 2^(63-2*q) := by
    rw [← pow_add, hexp]
    norm_num
  rw [he, Int.fdiv_eq_ediv _ (le_of_lt (twoPowPos _)),
    Int.mul_ediv_cancel _ (ne_of_gt (twoPowPos _))]

/-- The source loop body of the reciprocal coincides with the claim's Newton
step. -/
lemma recipBody_eq_newton (a : ℤ) {q : ℕ} (h16 : 16 ≤ q) :
    recipBody (toInt32 (-a)) (2^(2*q-32)) q = fun x =>
      toInt32 (x + lib_dsp_math_multiply_sat x (oneMinusProdSat a x q) q) := by
  funext x
  simp only [recipBody, oneMinusProdSat, lib_dsp_math_multiply_sat, accum_one_eq h16]

set_option maxRecDepth 4000 in
/-- C5 counterexample: at `d = -2^31` (a nonzero int32 input) the claim's
exact reading of the sign handling, `d := -d + 1` computed without 32-bit
wrapping, does not reproduce the code: the C negations wrap. -/
theorem reciprocal_newton_literal_fails :
    isInt32 (-2147483648) ∧ (-2147483648 : ℤ) ≠ 0 ∧
    lib_dsp_math_reciprocal (-2147483648) 16 ≠
      reciprocalNewtonLiteral (-2147483648) 16 := by decide

/-- C5 (amended): for every nonzero int32 `d` and every defined format
`16 ≤ q ≤ 31` with `q ≠ 31`, the reciprocal is the 30-fold Newton iteration
`x ← x + x*(1 - d*x)` in saturating fixed-point arithmetic from
`x0 = 2^(2q-32)`, with the sign handling `d := -d + 1` and all negations
computed in wrapping 32-bit arithmetic. -/
theorem reciprocal_newton_30 (d : ℤ) (q : ℕ) (hd : isInt32 d) (hd0 : d ≠ 0)
    (hq1 : 16 ≤ q) (hq2 : q ≤ 31) (hq31 : q ≠ 31) :
    lib_dsp_math_reciprocal d q = reciprocalNewton d q := by
  simp only [lib_dsp_math_reciprocal, reciprocalNewton, if_neg hq31,
    recip_x0_eq hq1 hq2,
    recipBody_eq_newton (if d < 0 then toInt32 (-d + 1) else d) hq1]

/-- C5 witness. -/
theorem reciprocal_newton_30_witness :
    isInt32 100 ∧ (100 : ℤ) ≠ 0 ∧ 16 ≤ 20 ∧ 20 ≤ 31 ∧ (20 : ℕ) ≠ 31 ∧
    lib_dsp_math_reciprocal 100 20 = reciprocalNewton 100 20 :=
  ⟨by decide, by decide, by norm_num, by norm_num, by norm_num,
    reciprocal_newton_30 100 20 (by decide) (by decide) (by norm_num)
      (by norm_num) (by norm_num)⟩

/-- The source loop body of the inverse square root coincides with the
claim's Newton step. -/
lemma invsqrBody_eq_newton (d : ℤ) {q : ℕ} (h16 : 16 ≤ q) :
    invsqrBody d (2^(2*q-32)) q = invsqrtNewtonStep d q := by
  funext y
  simp only [invsqrBody, invsqrtNewtonStep, oneMinusProdSat,
    lib_dsp_math_multiply_sat, accum_one_eq h16]

/-- C6: for every non-negative int32 `d` and every defined format
`16 ≤ q ≤ 31`, the inverse square root is exactly 10 unconditional Newton
iterations `y ← y + y*(1 - d*y²)/2` in saturating fixed-point arithmetic
(with the `/2` a truncating integer division of the correction term before
the final accumulation multiply), started from the raw value of 1.0,
`y0 = 1 << q`. -/
theorem invsqrroot_newton_10 (d : ℤ) (q : ℕ) (hd : 0 ≤ d) (hd2 : d < 2^31)
    (hq1 : 16 ≤ q) (hq2 : q ≤ 31) :
    lib_dsp_math_invsqrroot d q = invsqrtNewton d q := by
  simp only [lib_dsp_math_invsqrroot, invsqrtNewton, invsqrBody_eq_newton d hq1]

/-- C6 witness. -/
theorem invsqrroot_newton_10_witness :
    (0:ℤ) ≤ 67108864 ∧ (67108864:ℤ) < 2^31 ∧ 16 ≤ 28 ∧ 28 ≤ 31 ∧
    lib_dsp_math_invsqrroot 67108864 28 = invsqrtNewton 67108864 28 :=
  ⟨by norm_num, by norm_num, by norm_num, by norm_num,
    invsqrroot_newton_10 67108864 28 (by norm_num) (by norm_num)
      (by norm_num) (by norm_num)⟩

lemma multiply_isInt32 (a b : ℤ) (q : ℕ) : isInt32 (lib_dsp_math_multiply a b q) :=
  isInt32_toInt32 _

lemma cdiv2_isInt32 {x : ℤ} (h : isInt32 x) : isInt32 (cdiv2 x) := by
  obtain ⟨h1, h2⟩ := h
  unfold cdiv2 isInt32
  have hd : (x.natAbs / 2 : ℕ) ≤ x.natAbs := Nat.div_le_self _ _
  rcases Int.lt_trichotomy x 0 with hx | hx | hx
  · rw [Int.sign_eq_neg_one_iff_neg.mpr hx]
    omega
  · subst hx
    norm_num
  · rw [Int.sign_eq_one_iff_pos.mpr hx]
    omega

lemma sinRad1_isInt32 {rad : ℤ} (h : isInt32 rad) : isInt32 (sinRad1 rad) := by
  unfold sinRad1
  split
  · exact isInt32_toInt32 _
  · exact h

lemma sinRad4_isInt32 (rad : ℤ) (q : ℕ) : isInt32 (sinRad4 rad q) := by
  unfold sinRad4 sinRad3 sinRad2
  split
  · exact isInt32_toInt32 _
  · split
    · exact isInt32_toInt32 _
    · exact isInt32_toInt32 _

set_option maxRecDepth 4000 in
/-- C1 counterexample: at `rad = 2^30`, `q = 1`, the quadrant-index multiply
of `lib_dsp_math_sin` wraps, while a saturating multiply of the same operands
clamps, so not every internal multiply of `sin` is saturating. -/
theorem sin_multiplies_not_saturating :
    ¬ ∀ p ∈ sinOps (2^30) 1,
        lib_dsp_math_multiply p.1 p.2 1 = lib_dsp_math_multiply_sat p.1 p.2 1 := by
  decide

/-- C1 (amended): every internal multiply of `lib_dsp_math_sin` is the
non-saturating `lib_dsp_math_multiply`; on each of the seven operand pairs it
coincides with `lib_dsp_math_multiply_sat` exactly where the biased product
shifted right by `q` is representable in int32 (no saturation triggered). -/
theorem sin_multiplies_agree_when_representable (rad : ℤ) (q : ℕ)
    (hrad : isInt32 rad) (hq1 : 1 ≤ q) (hq2 : q ≤ 31) :
    ∀ p ∈ sinOps rad q,
      isInt32 (Int.fdiv (p.1 * p.2 + 2^(q-1)) (2^q)) →
        lib_dsp_math_multiply p.1 p.2 q = lib_dsp_math_multiply_sat p.1 p.2 q := by
  have key : ∀ a b : ℤ, isInt32 a → isInt32 b →
      isInt32 (Int.fdiv (a * b + 2^(q-1)) (2^q)) →
      lib_dsp_math_multiply a b q = lib_dsp_math_multiply_sat a b q := by
    intro a b ha hb h
    unfold lib_dsp_math_multiply lib_dsp_math_multiply_sat
    rw [maccs_bias_exact ha hb hq2, lsats_bias_acc_eq_self h]
  intro p hp
  fin_cases hp <;> dsimp only
  · exact key _ _ (sinRad1_isInt32 hrad) (by decide)
  · exact key _ _ (cdiv2_isInt32 (sinRad4_isInt32 rad q))
      (cdiv2_isInt32 (sinRad4_isInt32 rad q))
  · exact key _ _ (by decide) (isInt32_toInt32 _)
  · exact key _ _ (isInt32_toInt32 _) (isInt32_toInt32 _)
  · exact key _ _ (isInt32_toInt32 _) (isInt32_toInt32 _)
  · exact key _ _ (isInt32_toInt32 _) (isInt32_toInt32 _)
  · exact key _ _ (isInt32_toInt32 _) (sinRad4_isInt32 rad q)

/-- C1 witness. -/
theorem sin_multiplies_agree_witness :
    isInt32 0 ∧ 1 ≤ 28 ∧ 28 ≤ 31 ∧
    (∀ p ∈ sinOps 0 28,
      isInt32 (Int.fdiv (p.1 * p.2 + 2^(28-1)) (2^28)) →
        lib_dsp_math_multiply p.1 p.2 28 = lib_dsp_math_multiply_sat p.1 p.2 28) :=
  ⟨by decide, by norm_num, by norm_num,
    sin_multiplies_agree_when_representable 0 28 (by decide) (by norm_num)
      (by norm_num)⟩

lemma sinModulo_congr {a b : ℤ} (h : sinRad1 a = sinRad1 b) (q : ℕ) :
    sinModulo a q = sinModulo b q := by
  unfold sinModulo
  rw [h]

/-- The whole reduction and polynomial pipeline of `sin` depends on the input
angle only through `|rad|`. -/
lemma sinCore_congr {a b : ℤ} (h : sinRad1 a = sinRad1 b) (q : ℕ) :
    sinRad4 a q = sinRad4 b q ∧ sinM5 a q = sinM5 b q := by
  have hm := sinModulo_congr h q
  have h4 : sinRad4 a q = sinRad4 b q := by
    unfold sinRad4 sinRad3 sinRad2
    rw [hm, h]
  have hsq : sinSqr a q = sinSqr b q := by
    unfold sinSqr
    rw [h4]
  have h5 : sinM5 a q = sinM5 b q := by
    unfold sinM5 sinM4 sinM3 sinM2 sinM1
    rw [hsq, h4]
  exact ⟨h4, h5⟩

lemma sinRad1_neg {x : ℤ} (hx : 0 < x) (hx2 : x < 2^31) :
    sinRad1 (-x) = sinRad1 x := by
  unfold sinRad1
  rw [if_pos (by omega : -x < 0), if_neg (by omega : ¬ x < 0), neg_neg,
    toInt32_eq_self ⟨by omega, hx2⟩]

lemma sinSign_neg {x : ℤ} (hx : 0 < x) (hx2 : x < 2^31) (q : ℕ) :
    sinSign (-x) q = -sinSign x q := by
  unfold sinSign sinSign1
  rw [sinModulo_congr (sinRad1_neg hx hx2) q,
    if_pos (by omega : -x < 0), if_neg (by omega : ¬ x < 0)]
  split <;> ring

/-- Negating a value that wraps to `-2^31` wraps to `-2^31` again. -/
lemma toInt32_neg_intmin {w : ℤ} (h : toInt32 w = -(2^31)) :
    toInt32 (-w) = -(2^31) := by
  obtain ⟨k, hk⟩ := exists_wrap w
  rw [h] at hk
  have he : -w = -(2^31) + 2^32 * (1 - k) := by rw [hk]; ring
  rw [he, toInt32_add_wrap, toInt32_eq_self ⟨le_refl _, by norm_num⟩]

/-- The sine of zero is exactly zero for every valid format. -/
lemma sin_zero {q : ℕ} (hq1 : 1 ≤ q) (hq2 : q ≤ 31) : lib_dsp_math_sin 0 q = 0 := by
  have hr1 : sinRad1 0 = 0 := by unfold sinRad1; norm_num
  have hmod : sinModulo 0 q = 0 := by
    unfold sinModulo
    rw [hr1, (multiply_zero_prod (zero_mul _) hq1 hq2).1, Int.zero_fdiv]
  have hr2 : sinRad2 0 q = 0 := by
    unfold sinRad2
    rw [hr1, hmod, Int.zero_fdiv, zero_mul]
    decide
  have hr3 : sinRad3 0 q = 0 := by
    unfold sinRad3
    rw [hmod, hr2]
    norm_num
  have hr4 : sinRad4 0 q = 0 := by
    unfold sinRad4
    rw [hmod, hr3]
    norm_num
  have hsqr : sinSqr 0 q = 0 := by
    unfold sinSqr
    rw [hr4, show cdiv2 0 = 0 from by decide]
    exact (multiply_zero_prod (zero_mul _) hq1 hq2).1
  have hm5 : sinM5 0 q = 0 := by
    unfold sinM5
    rw [hr4]
    exact (multiply_zero_prod (mul_zero _) hq1 hq2).1
  have ht0 : toInt32 0 = 0 := by decide
  unfold lib_dsp_math_sin
  rw [hr4, hm5, add_zero, ht0, zero_mul, ht0]

set_option maxRecDepth 4000 in
/-- C9 counterexample: at `q = 1` and `x = 299233501`, inside the documented
domain, the sine core evaluates to exactly `-2^31`, whose negation wraps, so
`sin(-x, 1) = sin(x, 1) = -2^31` rather than `-sin(x, 1)`. -/
theorem sin_odd_fails :
    |(299233501 : ℤ)| < 2147483647 - 52707179 ∧
    lib_dsp_math_sin (-299233501) 1 ≠ -lib_dsp_math_sin 299233501 1 := by decide

/-- C9 (amended): sine is odd for every valid format and every angle in the
documented domain (`|x|` below `MAXint` minus the code's fixed-point pi,
`(PI2+1)>>1 = 52707179`), except at inputs where `sin(x, q)` is exactly
`-2^31`: there the final sign multiply wraps and `sin(-x, q) = sin(x, q)`
instead. -/
theorem sin_odd (x : ℤ) (q : ℕ) (hq1 : 1 ≤ q) (hq2 : q ≤ 31)
    (hdom : |x| < 2147483647 - 52707179)
    (hmin : lib_dsp_math_sin x q ≠ -(2^31)) :
    lib_dsp_math_sin (-x) q = -lib_dsp_math_sin x q := by
  rw [abs_lt] at hdom
  rcases Int.lt_trichotomy x 0 with hx | hx | hx
  · have hy : 0 < -x := by omega
    have hy2 : -x < 2^31 := by omega
    have h1 : sinRad1 x = sinRad1 (-x) := by
      have := sinRad1_neg hy hy2
      rwa [neg_neg] at this
    obtain ⟨h4, h5⟩ := sinCore_congr h1 q
    have hs : sinSign x q = -sinSign (-x) q := by
      have := sinSign_neg hy hy2 q
      rwa [neg_neg] at this
    unfold lib_dsp_math_sin at hmin ⊢
    rw [h4, h5, hs, mul_neg] at hmin ⊢
    have hg : toInt32 (toInt32 (sinRad4 (-x) q + sinM5 (-x) q) * sinSign (-x) q)
        ≠ -(2^31) := fun hc => hmin (toInt32_neg_intmin hc)
    rw [toInt32_neg hg, neg_neg]
  · subst hx
    rw [neg_zero, sin_zero hq1 hq2, neg_zero]
  · have hx2 : x < 2^31 := by omega
    have h1 := sinRad1_neg hx hx2
    obtain ⟨h4, h5⟩ := sinCore_congr h1 q
    have hs := sinSign_neg hx hx2 q
    unfold lib_dsp_math_sin at hmin ⊢
    rw [h4, h5, hs, mul_neg]
    exact toInt32_neg hmin

/-- C9 witness. -/
theorem sin_odd_witness :
    1 ≤ 28 ∧ 28 ≤ 31 ∧ |(26353589 : ℤ)| < 2147483647 - 52707179 ∧
    lib_dsp_math_sin 26353589 28 ≠ -(2^31) ∧
    lib_dsp_math_sin (-26353589) 28 = -lib_dsp_math_sin 26353589 28 :=
  ⟨by norm_num, by norm_num, by decide, by decide,
    sin_odd 26353589 28 (by norm_num) (by norm_num) (by decide) (by decide)⟩
